import Mathlib

/-!
Verification development for the `node-json-file-cache` library
(`src/index.js`, class `JsonFileCache`).

The store is embedded shallowly:
* the filesystem is a flat state: an association list from paths (lists of
  path components) to file contents, plus the list of existing directories;
* a shard file's content is either a parsed shard document (an insertion
  ordered association list from digest strings to records) or `none`,
  standing for a file whose content fails to parse as JSON — the JSON
  serializer round-trip is treated as a black box, so files hold parsed
  documents directly;
* the MD5 digest is implemented in full (RFC 1321) over UTF-8 bytes, so
  shard paths are the concrete ones the library produces;
* JavaScript exceptions of the mutating operations are a `Option JsError`
  component of the result, so a raised type error visibly leaves the
  filesystem untouched; synchronous I/O itself is modelled as always
  succeeding;
* `Date.now()` is an explicit `now` argument.
-/

namespace JsonFileCache

/-- JSON-serializable JavaScript values: the domain of cached values. -/
inductive Json where
  | null
  | bool (b : Bool)
  | num (n : Int)
  | str (s : String)
  | arr (elems : List Json)
  | obj (fields : List (String × Json))

/-- The errors the store can raise: `throw new TypeError('Key must be a string')`. -/
inductive JsError where
  | typeError (msg : String)
deriving DecidableEq

/-- The unit stored per key: `{ key, value, timestamp: Date.now() }`. -/
structure Record where
  key : String
  value : Json
  timestamp : Nat

/-- A parsed shard file: a JavaScript object mapping full MD5 digests to
records, in insertion order. -/
abbrev ShardDoc := List (String × Record)

/-- Content of a file on disk: a parsed shard document, or `none` for a file
whose content does not parse (`JSON.parse` throws). -/
abbrev FileData := Option ShardDoc

/-- A filesystem path, as the list of its components (`path.join` is `++`). -/
abbrev Path := List String

/-- The filesystem: existing files with their contents, and existing
directories. -/
structure FS where
  files : List (Path × FileData)
  dirs : List Path

/-- Result of `_getFilePath`. -/
structure FilePathInfo where
  folderPath : Path
  filePath : Path
  md5 : String

/-! ### MD5 (RFC 1321), used by `_getMd5` via `crypto.createHash('md5')` -/

/-- UTF-8 encoding of a Unicode code point, as a list of byte values. -/
def utf8Encode (c : Nat) : List Nat :=
  if c < 128 then [c]
  else if c < 2048 then [192 + c / 64, 128 + c % 64]
  else if c < 65536 then [224 + c / 4096, 128 + (c / 64) % 64, 128 + c % 64]
  else [240 + c / 262144, 128 + (c / 4096) % 64, 128 + (c / 64) % 64, 128 + c % 64]

/-- The bytes of a string under UTF-8 encoding. -/
def strBytes (s : String) : List Nat :=
  s.toList.flatMap (fun ch => utf8Encode ch.toNat)

/-- 32-bit left rotation of a value below 2^32. -/
def rotl32 (x s : Nat) : Nat :=
  ((x <<< s) % 4294967296) ||| (x >>> (32 - s))

/-- 32-bit complement. -/
def bnot32 (x : Nat) : Nat := 4294967295 ^^^ x

/-- MD5 per-round sine-derived constants. -/
def mdK : List Nat :=
  [0xd76aa478, 0xe8c7b756, 0x242070db, 0xc1bdceee,
   0xf57c0faf, 0x4787c62a, 0xa8304613, 0xfd469501,
   0x698098d8, 0x8b44f7af, 0xffff5bb1, 0x895cd7be,
   0x6b901122, 0xfd987193, 0xa679438e, 0x49b40821,
   0xf61e2562, 0xc040b340, 0x265e5a51, 0xe9b6c7aa,
   0xd62f105d, 0x02441453, 0xd8a1e681, 0xe7d3fbc8,
   0x21e1cde6, 0xc33707d6, 0xf4d50d87, 0x455a14ed,
   0xa9e3e905, 0xfcefa3f8, 0x676f02d9, 0x8d2a4c8a,
   0xfffa3942, 0x8771f681, 0x6d9d6122, 0xfde5380c,
   0xa4beea44, 0x4bdecfa9, 0xf6bb4b60, 0xbebfbc70,
   0x289b7ec6, 0xeaa127fa, 0xd4ef3085, 0x04881d05,
   0xd9d4d039, 0xe6db99e5, 0x1fa27cf8, 0xc4ac5665,
   0xf4292244, 0x432aff97, 0xab9423a7, 0xfc93a039,
   0x655b59c3, 0x8f0ccc92, 0xffeff47d, 0x85845dd1,
   0x6fa87e4f, 0xfe2ce6e0, 0xa3014314, 0x4e0811a1,
   0xf7537e82, 0xbd3af235, 0x2ad7d2bb, 0xeb86d391]

/-- MD5 per-round shift amounts. -/
def mdS : List Nat :=
  [7, 12, 17, 22, 7, 12, 17, 22, 7, 12, 17, 22, 7, 12, 17, 22,
   5, 9, 14, 20, 5, 9, 14, 20, 5, 9, 14, 20, 5, 9, 14, 20,
   4, 11, 16, 23, 4, 11, 16, 23, 4, 11, 16, 23, 4, 11, 16, 23,
   6, 10, 15, 21, 6, 10, 15, 21, 6, 10, 15, 21, 6, 10, 15, 21]

/-- MD5 message padding: append 0x80, zero bytes up to 56 mod 64, then the
bit length as 8 little-endian bytes. -/
def md5Pad (msg : List Nat) : List Nat :=
  let bitLen := (msg.length * 8) % 18446744073709551616
  let z := (119 - msg.length % 64) % 64
  msg ++ [128] ++ List.replicate z 0 ++
    [bitLen % 256, (bitLen >>> 8) % 256, (bitLen >>> 16) % 256, (bitLen >>> 24) % 256,
     (bitLen >>> 32) % 256, (bitLen >>> 40) % 256, (bitLen >>> 48) % 256, (bitLen >>> 56) % 256]

/-- Bytes to 32-bit little-endian words. -/
def bytesToWords : List Nat → List Nat
  | b0 :: b1 :: b2 :: b3 :: rest =>
    (b0 + b1 * 256 + b2 * 65536 + b3 * 16777216) :: bytesToWords rest
  | _ => []

/-- Words grouped into 16-word blocks. -/
def wordsToBlocks : List Nat → List (List Nat)
  | w0 :: w1 :: w2 :: w3 :: w4 :: w5 :: w6 :: w7 :: w8 :: w9 :: w10 :: w11 :: w12 :: w13 :: w14 :: w15 :: rest =>
    [w0, w1, w2, w3, w4, w5, w6, w7, w8, w9, w10, w11, w12, w13, w14, w15] :: wordsToBlocks rest
  | _ => []

/-- One MD5 round on the (a, b, c, d) state. -/
def md5Round (M : List Nat) (st : Nat × Nat × Nat × Nat) (i : Nat) : Nat × Nat × Nat × Nat :=
  let a := st.1
  let b := st.2.1
  let c := st.2.2.1
  let d := st.2.2.2
  let fg : Nat × Nat :=
    if i < 16 then ((b &&& c) ||| (bnot32 b &&& d), i)
    else if i < 32 then ((d &&& b) ||| (bnot32 d &&& c), (5 * i + 1) % 16)
    else if i < 48 then (b ^^^ c ^^^ d, (3 * i + 5) % 16)
    else (c ^^^ (b ||| bnot32 d), (7 * i) % 16)
  let f1 := (fg.1 + a + mdK.getD i 0 + M.getD fg.2 0) % 4294967296
  (d, (b + rotl32 f1 (mdS.getD i 0)) % 4294967296, b, c)

/-- Process one 16-word block, updating the running digest state. -/
def md5Block (st : Nat × Nat × Nat × Nat) (M : List Nat) : Nat × Nat × Nat × Nat :=
  let r := (List.range 64).foldl (md5Round M) st
  ((st.1 + r.1) % 4294967296, (st.2.1 + r.2.1) % 4294967296,
   (st.2.2.1 + r.2.2.1) % 4294967296, (st.2.2.2 + r.2.2.2) % 4294967296)

/-- Little-endian byte decomposition of a 32-bit word. -/
def wordBytes (w : Nat) : List Nat :=
  [w % 256, (w >>> 8) % 256, (w >>> 16) % 256, (w >>> 24) % 256]

/-- The 16 digest bytes of MD5 applied to a byte message. -/
def md5Bytes (msg : List Nat) : List Nat :=
  let blocks := wordsToBlocks (bytesToWords (md5Pad msg))
  let st := blocks.foldl md5Block (0x67452301, 0xefcdab89, 0x98badcfe, 0x10325476)
  wordBytes st.1 ++ wordBytes st.2.1 ++ wordBytes st.2.2.1 ++ wordBytes st.2.2.2

/-- The lowercase hex digit characters. -/
def hexChars : List Char := "0123456789abcdef".data

/-- The lowercase hex digit for a value below 16. -/
def hexDigit (n : Nat) : Char := hexChars.getD n '0'

/-- Lowercase hex string of a byte list, two digits per byte. -/
def toHex (bs : List Nat) : String :=
  String.mk (bs.flatMap (fun b => [hexDigit ((b >>> 4) % 16), hexDigit (b % 16)]))

/-- Lowercase-hex MD5 digest of a string, as `digest('hex')` produces it. -/
def md5hex (s : String) : String := toHex (md5Bytes (strBytes s))

/-! ### Path resolution (`_getMd5`, `_getFilePath`) -/

/-- JavaScript `String.prototype.charAt`: the one-character string at the
given index, or the empty string past the end. -/
def charAt (s : String) (i : Nat) : String :=
  match s.toList.drop i with
  | [] => ""
  | c :: _ => String.mk [c]

/-- `_getMd5(key)`: MD5 of the key (for a string key, `String(key)` is the
key itself). -/
def _getMd5 (key : String) : String := md5hex key

/-- `_getFilePath(key)`: first three digest characters as three nested
directory levels, fourth digest character plus `.json` as the file name. -/
def _getFilePath (cachePath : Path) (key : String) : FilePathInfo :=
  let md5 := _getMd5 key
  let level1 := charAt md5 0
  let level2 := charAt md5 1
  let level3 := charAt md5 2
  let fileName := charAt md5 3 ++ ".json"
  let folderPath := cachePath ++ [level1, level2, level3]
  let filePath := folderPath ++ [fileName]
  ⟨folderPath, filePath, md5⟩

/-! ### Association-list primitives (JavaScript object semantics) -/

/-- Property lookup `m[k]` on a string-keyed object. -/
def lookupA {α β : Type} [DecidableEq α] : List (α × β) → α → Option β
  | [], _ => none
  | (k0, v0) :: rest, k => if k0 = k then some v0 else lookupA rest k

/-- Property assignment `m[k] = v`: update in place, else append. -/
def setA {α β : Type} [DecidableEq α] : List (α × β) → α → β → List (α × β)
  | [], k, v => [(k, v)]
  | (k0, v0) :: rest, k, v =>
    if k0 = k then (k, v) :: rest else (k0, v0) :: setA rest k v

/-- Property deletion `delete m[k]`. -/
def delA {α β : Type} [DecidableEq α] (l : List (α × β)) (k : α) : List (α × β) :=
  l.filter (fun e => !decide (e.1 = k))

/-! ### Filesystem primitives -/

/-- `fs.existsSync` restricted to files. -/
def isFile (fs : FS) (p : Path) : Bool := (lookupA fs.files p).isSome

/-- `fs.statSync(p).isDirectory()`. -/
def isDir (fs : FS) (p : Path) : Bool := fs.dirs.contains p

/-- `fs.existsSync`. -/
def existsSync (fs : FS) (p : Path) : Bool := isFile fs p || isDir fs p

/-- The nonempty prefixes of a path: the chain of directories
`fs.mkdirSync(p, { recursive: true })` guarantees to exist. -/
def pathPrefixes (p : Path) : List Path :=
  (List.range p.length).map (fun i => p.take (i + 1))

/-- `fs.mkdirSync(p, { recursive: true })`. -/
def mkdirRec (fs : FS) (p : Path) : FS :=
  { fs with dirs := fs.dirs ++ (pathPrefixes p).filter (fun q => !(fs.dirs.contains q)) }

/-- `_ensureDir(dirPath)`. -/
def _ensureDir (fs : FS) (p : Path) : FS :=
  if existsSync fs p then fs else mkdirRec fs p

/-- `_readFile(filePath)`: parsed content of an existing file, the empty
document `{}` for a missing file or one whose parse fails (the `JSON.parse`
error is caught and logged). -/
def _readFile (fs : FS) (p : Path) : ShardDoc :=
  match lookupA fs.files p with
  | some (some data) => data
  | _ => []

/-- `_writeFile(filePath, data)`: serialize and fully overwrite. -/
def _writeFile (fs : FS) (p : Path) (data : ShardDoc) : FS :=
  { fs with files := setA fs.files p (some data) }

/-- `fs.unlinkSync(filePath)`. -/
def unlink (fs : FS) (p : Path) : FS :=
  { fs with files := delA fs.files p }

/-- The name of `q` as an immediate child of directory `p`, if it is one. -/
def childName (p q : Path) : Option String :=
  match q.drop p.length with
  | [n] => if decide (p <+: q) then some n else none
  | _ => none

/-- `fs.readdirSync(p)`: names of immediate children (derived from every
existing file and directory beneath `p`). -/
def readdir (fs : FS) (p : Path) : List String :=
  ((fs.files.map Prod.fst) ++ fs.dirs).filterMap (childName p)

/-- `_removeDir(dirPath)`: the recursive delete of everything beneath `p`
and of `p` itself (the source recurses through `readdirSync`; on the flat
state this removes exactly the paths extending `p`). -/
def removeDir (fs : FS) (p : Path) : FS :=
  ⟨fs.files.filter (fun e => !decide (p <+: e.1)),
   fs.dirs.filter (fun d => !decide (p <+: d))⟩

/-! ### The store operations -/

/-- `typeof key === 'string'`. -/
def isStr : Json → Bool
  | .str _ => true
  | _ => false

/-- One step of `clear()`'s loop over the root's entries: recursively delete
the entry when it is a directory. -/
def clearStep (root : Path) (acc : FS) (name : String) : FS :=
  let folderPath := root ++ [name]
  if isDir acc folderPath then removeDir acc folderPath else acc

/-- `setItem(key, value)`. -/
def setItem (root : Path) (key value : Json) (now : Nat) (fs : FS) :
    FS × Option JsError :=
  match key with
  | .str s =>
    let fp := _getFilePath root s
    let fs1 := _ensureDir fs fp.folderPath
    let data := _readFile fs1 fp.filePath
    let data1 := setA data fp.md5 ⟨s, value, now⟩
    (_writeFile fs1 fp.filePath data1, none)
  | _ => (fs, some (.typeError "Key must be a string"))

/-- `getItem(key)`: the stored value, `null` when absent. -/
def getItem (root : Path) (key : Json) (fs : FS) : Except JsError Json :=
  match key with
  | .str s =>
    let fp := _getFilePath root s
    if existsSync fs fp.filePath = false then .ok .null
    else
      match lookupA (_readFile fs fp.filePath) fp.md5 with
      | some item => .ok item.value
      | none => .ok .null
  | _ => .error (.typeError "Key must be a string")

/-- `removeItem(key)`. -/
def removeItem (root : Path) (key : Json) (fs : FS) : FS × Option JsError :=
  match key with
  | .str s =>
    let fp := _getFilePath root s
    if existsSync fs fp.filePath = false then (fs, none)
    else
      let data := _readFile fs fp.filePath
      match lookupA data fp.md5 with
      | some _ =>
        let data1 := delA data fp.md5
        if data1.length = 0 then (unlink fs fp.filePath, none)
        else (_writeFile fs fp.filePath data1, none)
      | none => (fs, none)
  | _ => (fs, some (.typeError "Key must be a string"))

/-- `clear()`: recursively delete every directory entry of the root. -/
def clear (root : Path) (fs : FS) : FS :=
  if existsSync fs root then (readdir fs root).foldl (clearStep root) fs else fs

/-- `file.endsWith('.json')`, character-wise. -/
def strEndsWith (s post : String) : Bool := post.data.isSuffixOf s.data

/-- `_getAllJsonFiles(dirPath)`: every `.json` file strictly beneath `p`
(the source walks the directory tree, so it visits exactly the files whose
ancestor directories exist, as `_ensureDir` guarantees for shard files). -/
def _getAllJsonFiles (fs : FS) (p : Path) : List Path :=
  if existsSync fs p then
    (fs.files.map Prod.fst).filter
      (fun q => decide (p <+: q) && decide (p.length < q.length) &&
        (match q.getLast? with
         | some n => strEndsWith n ".json"
         | none => false))
  else []

/-- `keys()`: the `key` field of each record of each shard file, skipping
records whose `key` field is not truthy (the empty string). -/
def keys (root : Path) (fs : FS) : List String :=
  (_getAllJsonFiles fs root).flatMap (fun p =>
    ((_readFile fs p).map Prod.snd).filterMap (fun item =>
      if item.key = "" then none else some item.key))

/-- `get length()`. -/
def length (root : Path) (fs : FS) : Nat := (keys root fs).length

/-! ### State predicates used by the claims -/

/-- A file's content is not the empty document `{}` (a corrupt file is not
an empty document). -/
def fileNonempty : FileData → Bool
  | some d => !(d.length == 0)
  | none => true

/-- No shard file on disk is an empty document. -/
def noEmptyShard (fs : FS) : Bool := fs.files.all (fun e => fileNonempty e.2)

/-- Specification-side enumeration for `keys()`: the records of every shard
document beneath the root, in the same traversal order (the spec sentence
"collects the `key` field of every Record across every shard document"). -/
def allRecords (root : Path) (fs : FS) : List Record :=
  (_getAllJsonFiles fs root).flatMap (fun p => (_readFile fs p).map Prod.snd)

/-- Store-shaped state for `clear()`: the root directory exists, and every
file beneath the root is at least two levels down with its first-level
parent directory present — as the constructor and `_ensureDir` guarantee. -/
def clearOK (root : Path) (fs : FS) : Bool :=
  fs.dirs.contains root &&
  fs.files.all (fun e =>
    !(decide (root <+: e.1)) ||
    (decide (root.length + 2 ≤ e.1.length) &&
     fs.dirs.contains (root ++ [e.1.getD root.length ""])))

/-- Every record of a parsed shard document beneath the root is stored under
the digest of its own `key` field, in the file that key resolves to. -/
def fileGood (root p : Path) : FileData → Bool
  | some doc => doc.all (fun e =>
      decide (e.1 = _getMd5 e.2.key) && decide (p = (_getFilePath root e.2.key).filePath))
  | none => true

/-- The digest-placement invariant over the whole store. -/
def goodState (root : Path) (fs : FS) : Bool :=
  fs.files.all (fun f => !(decide (root <+: f.1)) || fileGood root f.1 f.2)

/-! ### Association-list lemmas -/

theorem lookupA_setA_self {α β : Type} [DecidableEq α] (l : List (α × β)) (k : α) (v : β) :
    lookupA (setA l k v) k = some v := by
  induction l with
  | nil => simp [setA, lookupA]
  | cons e rest ih =>
    obtain ⟨k0, v0⟩ := e
    by_cases h : k0 = k
    · simp [setA, h, lookupA]
    · simp [setA, h, lookupA, ih]

theorem lookupA_setA_ne {α β : Type} [DecidableEq α] (l : List (α × β)) {k k' : α} (v : β)
    (h : k' ≠ k) : lookupA (setA l k v) k' = lookupA l k' := by
  induction l with
  | nil => simp [setA, lookupA, Ne.symm h]
  | cons e rest ih =>
    obtain ⟨k0, v0⟩ := e
    by_cases h0 : k0 = k
    · subst h0
      simp [setA, lookupA, Ne.symm h]
    · simp [setA, h0, lookupA, ih]

theorem setA_ne_nil {α β : Type} [DecidableEq α] (l : List (α × β)) (k : α) (v : β) :
    setA l k v ≠ [] := by
  cases l with
  | nil => simp [setA]
  | cons e rest =>
    obtain ⟨k0, v0⟩ := e
    by_cases h : k0 = k <;> simp [setA, h]

theorem mem_setA {α β : Type} [DecidableEq α] {l : List (α × β)} {k : α} {v : β}
    {e : α × β} (h : e ∈ setA l k v) : e = (k, v) ∨ e ∈ l := by
  induction l with
  | nil => simpa [setA] using h
  | cons e0 rest ih =>
    obtain ⟨k0, v0⟩ := e0
    by_cases h0 : k0 = k
    · rw [setA, if_pos h0] at h
      rcases List.mem_cons.1 h with h | h
      · exact .inl h
      · exact .inr (List.mem_cons_of_mem _ h)
    · rw [setA, if_neg h0] at h
      rcases List.mem_cons.1 h with h | h
      · exact .inr (by simp [h])
      · rcases ih h with h | h
        · exact .inl h
        · exact .inr (List.mem_cons_of_mem _ h)

theorem lookupA_mem {α β : Type} [DecidableEq α] {l : List (α × β)} {k : α} {v : β}
    (h : lookupA l k = some v) : (k, v) ∈ l := by
  induction l with
  | nil => simp [lookupA] at h
  | cons e rest ih =>
    obtain ⟨k0, v0⟩ := e
    by_cases h0 : k0 = k
    · subst h0
      rw [lookupA, if_pos rfl] at h
      obtain rfl : v0 = v := by injection h
      exact List.mem_cons_self _ _
    · rw [lookupA, if_neg h0] at h
      exact List.mem_cons_of_mem _ (ih h)

theorem lookupA_delA_self {α β : Type} [DecidableEq α] (l : List (α × β)) (k : α) :
    lookupA (delA l k) k = none := by
  induction l with
  | nil => simp [delA, lookupA]
  | cons e rest ih =>
    obtain ⟨k0, v0⟩ := e
    by_cases h : k0 = k
    · simpa [delA, List.filter_cons, h] using ih
    · simpa [delA, List.filter_cons, h, lookupA] using ih

theorem lookupA_delA_ne {α β : Type} [DecidableEq α] (l : List (α × β)) {k k' : α}
    (h : k' ≠ k) : lookupA (delA l k) k' = lookupA l k' := by
  induction l with
  | nil => simp [delA, lookupA]
  | cons e rest ih =>
    obtain ⟨k0, v0⟩ := e
    by_cases h0 : k0 = k
    · subst h0
      have : k0 ≠ k' := Ne.symm h
      simpa [delA, List.filter_cons, lookupA, this] using ih
    · simp [delA, List.filter_cons, h0, lookupA] at ih ⊢
      by_cases h1 : k0 = k' <;> simp [h1, ih]

theorem mem_delA {α β : Type} [DecidableEq α] {l : List (α × β)} {k : α} {e : α × β}
    (h : e ∈ delA l k) : e ∈ l := (List.mem_filter.1 h).1

/-! ### Filesystem lemmas -/

theorem ensureDir_files (fs : FS) (p : Path) : (_ensureDir fs p).files = fs.files := by
  unfold _ensureDir mkdirRec
  split <;> rfl

theorem readFile_writeFile (fs : FS) (p : Path) (d : ShardDoc) :
    _readFile (_writeFile fs p d) p = d := by
  simp [_readFile, _writeFile, lookupA_setA_self]

theorem readFile_writeFile_ne (fs : FS) {p q : Path} (d : ShardDoc) (h : q ≠ p) :
    _readFile (_writeFile fs p d) q = _readFile fs q := by
  simp [_readFile, _writeFile, lookupA_setA_ne _ _ h]

theorem isFile_writeFile (fs : FS) (p : Path) (d : ShardDoc) :
    isFile (_writeFile fs p d) p = true := by
  simp [isFile, _writeFile, lookupA_setA_self]

theorem existsSync_writeFile (fs : FS) (p : Path) (d : ShardDoc) :
    existsSync (_writeFile fs p d) p = true := by
  simp [existsSync, isFile_writeFile]

theorem readFile_congr {fs1 fs2 : FS} (p : Path) (h : fs1.files = fs2.files) :
    _readFile fs1 p = _readFile fs2 p := by
  simp [_readFile, h]

/-! ### Digest shape lemmas -/

theorem hexDigit_mem (n : Nat) : hexDigit n ∈ hexChars := by
  unfold hexDigit
  rw [List.getD_eq_getElem?_getD]
  rcases h : hexChars[n]? with _ | c
  · simp [Option.getD]
    decide
  · simpa [Option.getD] using List.getElem?_mem h

theorem toHex_length (bs : List Nat) : (toHex bs).data.length = 2 * bs.length := by
  show (bs.flatMap _).length = 2 * bs.length
  induction bs with
  | nil => simp
  | cons b rest ih =>
    simp only [List.flatMap_cons, List.length_append, List.length_cons, ih]
    simp
    ring

theorem toHex_mem (bs : List Nat) : ∀ c ∈ (toHex bs).data, c ∈ hexChars := by
  show ∀ c ∈ bs.flatMap _, c ∈ hexChars
  intro c hc
  rw [List.mem_flatMap] at hc
  obtain ⟨b, _, hb⟩ := hc
  rcases List.mem_cons.1 hb with h | h
  · exact h ▸ hexDigit_mem _
  · rcases List.mem_cons.1 h with h | h
    · exact h ▸ hexDigit_mem _
    · simp at h

theorem md5Bytes_shape (msg : List Nat) :
    ∃ a b c d, md5Bytes msg = wordBytes a ++ wordBytes b ++ wordBytes c ++ wordBytes d :=
  ⟨_, _, _, _, rfl⟩

theorem md5Bytes_length (msg : List Nat) : (md5Bytes msg).length = 16 := by
  obtain ⟨a, b, c, d, h⟩ := md5Bytes_shape msg
  simp [h, wordBytes]

theorem md5hex_length (s : String) : (md5hex s).data.length = 32 := by
  unfold md5hex
  rw [toHex_length, md5Bytes_length]

theorem charAt_of_data {s : String} {l : List Char} {c : Char} {i : Nat}
    (h : s.data.drop i = c :: l) : charAt s i = String.mk [c] := by
  unfold charAt
  rw [show s.toList = s.data from rfl, h]

theorem exists_four_chars {l : List Char} (h : l.length = 32) :
    ∃ c0 c1 c2 c3 rest, l = c0 :: c1 :: c2 :: c3 :: rest := by
  rcases l with _ | ⟨c0, l⟩
  · simp at h
  rcases l with _ | ⟨c1, l⟩
  · simp at h
  rcases l with _ | ⟨c2, l⟩
  · simp at h
  rcases l with _ | ⟨c3, l⟩
  · simp at h
  exact ⟨c0, c1, c2, c3, l, rfl⟩

theorem md5_filePath_decomp (root : Path) (key : String) :
    ∃ c0 c1 c2 c3 rest,
      (_getMd5 key).data = c0 :: c1 :: c2 :: c3 :: rest ∧
      (_getMd5 key).data.length = 32 ∧
      (∀ c ∈ (_getMd5 key).data, c ∈ hexChars) ∧
      _getFilePath root key =
        ⟨root ++ [String.mk [c0], String.mk [c1], String.mk [c2]],
         root ++ [String.mk [c0], String.mk [c1], String.mk [c2], String.mk [c3] ++ ".json"],
         _getMd5 key⟩ := by
  obtain ⟨c0, c1, c2, c3, rest, hd⟩ := exists_four_chars (md5hex_length key)
  have hd' : (_getMd5 key).data = c0 :: c1 :: c2 :: c3 :: rest := hd
  refine ⟨c0, c1, c2, c3, rest, hd', md5hex_length key, toHex_mem _, ?_⟩
  have h0 : charAt (_getMd5 key) 0 = String.mk [c0] :=
    charAt_of_data (l := c1 :: c2 :: c3 :: rest) (by simp [hd'])
  have h1 : charAt (_getMd5 key) 1 = String.mk [c1] :=
    charAt_of_data (l := c2 :: c3 :: rest) (by simp [hd'])
  have h2 : charAt (_getMd5 key) 2 = String.mk [c2] :=
    charAt_of_data (l := c3 :: rest) (by simp [hd'])
  have h3 : charAt (_getMd5 key) 3 = String.mk [c3] :=
    charAt_of_data (l := rest) (by simp [hd'])
  simp [_getFilePath, h0, h1, h2, h3]

/-! ### Operation-level lemmas -/

@[simp]
theorem getFilePath_md5 (root : Path) (key : String) :
    (_getFilePath root key).md5 = _getMd5 key := rfl

theorem setItem_state (root : Path) (k : String) (v : Json) (t : Nat) (fs : FS) :
    (setItem root (.str k) v t fs).1 =
      _writeFile (_ensureDir fs (_getFilePath root k).folderPath)
        (_getFilePath root k).filePath
        (setA (_readFile fs (_getFilePath root k).filePath) (_getMd5 k) ⟨k, v, t⟩) := by
  simp [setItem, readFile_congr _ (ensureDir_files fs (_getFilePath root k).folderPath)]

theorem readFile_setItem_self (root : Path) (k : String) (v : Json) (t : Nat) (fs : FS) :
    _readFile (setItem root (.str k) v t fs).1 (_getFilePath root k).filePath =
      setA (_readFile fs (_getFilePath root k).filePath) (_getMd5 k) ⟨k, v, t⟩ := by
  rw [setItem_state, readFile_writeFile]

theorem existsSync_setItem_self (root : Path) (k : String) (v : Json) (t : Nat) (fs : FS) :
    existsSync (setItem root (.str k) v t fs).1 (_getFilePath root k).filePath = true := by
  rw [setItem_state]
  exact existsSync_writeFile _ _ _

theorem getItem_noFile {root : Path} {k : String} {fs : FS}
    (h : existsSync fs (_getFilePath root k).filePath = false) :
    getItem root (.str k) fs = .ok .null := by
  simp [getItem, h]

theorem getItem_noEntry {root : Path} {k : String} {fs : FS}
    (h1 : existsSync fs (_getFilePath root k).filePath = true)
    (h2 : lookupA (_readFile fs (_getFilePath root k).filePath) (_getMd5 k) = none) :
    getItem root (.str k) fs = .ok .null := by
  simp [getItem, h1, h2]

theorem getItem_found {root : Path} {k : String} {fs : FS} {r : Record}
    (h1 : existsSync fs (_getFilePath root k).filePath = true)
    (h2 : lookupA (_readFile fs (_getFilePath root k).filePath) (_getMd5 k) = some r) :
    getItem root (.str k) fs = .ok r.value := by
  simp [getItem, h1, h2]

theorem removeItem_noFile {root : Path} {k : String} {fs : FS}
    (h : existsSync fs (_getFilePath root k).filePath = false) :
    removeItem root (.str k) fs = (fs, none) := by
  simp [removeItem, h]

theorem removeItem_noEntry {root : Path} {k : String} {fs : FS}
    (h1 : existsSync fs (_getFilePath root k).filePath = true)
    (h2 : lookupA (_readFile fs (_getFilePath root k).filePath) (_getMd5 k) = none) :
    removeItem root (.str k) fs = (fs, none) := by
  simp [removeItem, h1, h2]

theorem removeItem_write {root : Path} {k : String} {fs : FS} {r : Record}
    (h1 : existsSync fs (_getFilePath root k).filePath = true)
    (h2 : lookupA (_readFile fs (_getFilePath root k).filePath) (_getMd5 k) = some r)
    (h3 : delA (_readFile fs (_getFilePath root k).filePath) (_getMd5 k) ≠ []) :
    removeItem root (.str k) fs =
      (_writeFile fs (_getFilePath root k).filePath
        (delA (_readFile fs (_getFilePath root k).filePath) (_getMd5 k)), none) := by
  have h3' : (delA (_readFile fs (_getFilePath root k).filePath) (_getMd5 k)).length ≠ 0 := by
    simpa [List.length_eq_zero] using h3
  simp [removeItem, h1, h2, h3']

theorem removeItem_unlink {root : Path} {k : String} {fs : FS} {r : Record}
    (h1 : existsSync fs (_getFilePath root k).filePath = true)
    (h2 : lookupA (_readFile fs (_getFilePath root k).filePath) (_getMd5 k) = some r)
    (h3 : delA (_readFile fs (_getFilePath root k).filePath) (_getMd5 k) = []) :
    removeItem root (.str k) fs = (unlink fs (_getFilePath root k).filePath, none) := by
  simp [removeItem, h1, h2, h3]

theorem all_setA {α β : Type} [DecidableEq α] {l : List (α × β)} {f : α × β → Bool}
    {k : α} {v : β} (hl : l.all f = true) (hv : f (k, v) = true) :
    (setA l k v).all f = true := by
  induction l with
  | nil => simp [setA, hv]
  | cons e rest ih =>
    obtain ⟨k0, v0⟩ := e
    rw [List.all_cons, Bool.and_eq_true] at hl
    by_cases h : k0 = k
    · simp [setA, h, hv, hl.2]
    · simp [setA, h, hl.1, ih hl.2]

theorem all_filter_of_all {α : Type} {l : List α} {p f : α → Bool} (h : l.all f = true) :
    (l.filter p).all f = true := by
  rw [List.all_eq_true] at h ⊢
  intro x hx
  exact h x (List.mem_filter.1 hx).1

theorem foldl_clearStep_all {root : Path} {f : Path × FileData → Bool}
    (names : List String) : ∀ (acc : FS), acc.files.all f = true →
      (names.foldl (clearStep root) acc).files.all f = true := by
  induction names with
  | nil =>
    intro acc h
    exact h
  | cons n rest ih =>
    intro acc h
    rw [List.foldl_cons]
    apply ih
    show (if isDir acc (root ++ [n]) then removeDir acc (root ++ [n]) else acc).files.all f
      = true
    split
    · exact all_filter_of_all h
    · exact h

/-! ### Claim theorems -/

/-- C1: for every string key `k` and every serializable value `v`,
`set(k, v)` followed by `get(k)` on the resulting state raises no error and
returns a value equal to `v`. -/
theorem set_get_roundtrip (root : Path) (k : String) (v : Json) (now : Nat) (fs : FS) :
    (setItem root (.str k) v now fs).2 = none ∧
    getItem root (.str k) (setItem root (.str k) v now fs).1 = .ok v := by
  refine ⟨rfl, ?_⟩
  simp [setItem, getItem, existsSync_writeFile, readFile_writeFile, lookupA_setA_self]

/-- C2: the shard location is a pure function of key and root: the digest
has 32 lowercase-hex characters, the first three each one directory level
beneath the root, and the fourth plus `.json` the leaf file name. -/
theorem shard_path_formula (root : Path) (key : String) :
    ∃ c0 c1 c2 c3 rest,
      (_getMd5 key).data = c0 :: c1 :: c2 :: c3 :: rest ∧
      (_getMd5 key).data.length = 32 ∧
      (∀ c ∈ (_getMd5 key).data, c ∈ hexChars) ∧
      _getFilePath root key =
        ⟨root ++ [String.mk [c0], String.mk [c1], String.mk [c2]],
         root ++ [String.mk [c0], String.mk [c1], String.mk [c2], String.mk [c3] ++ ".json"],
         _getMd5 key⟩ :=
  md5_filePath_decomp root key

/-- C3: two distinct string keys whose digests agree on the first four hex
characters but differ as full digests resolve to the same shard file; after
setting both, that file holds both records as separate entries, and removing
the first leaves the second retrievable. -/
theorem shard_sharing (root : Path) (k1 k2 : String) (v1 v2 : Json) (t1 t2 : Nat) (fs : FS)
    (hk : k1 ≠ k2) (hmd : _getMd5 k1 ≠ _getMd5 k2)
    (hpre : (_getMd5 k1).data.take 4 = (_getMd5 k2).data.take 4) :
    (_getFilePath root k2).filePath = (_getFilePath root k1).filePath ∧
    (setItem root (.str k1) v1 t1 fs).2 = none ∧
    (setItem root (.str k2) v2 t2 (setItem root (.str k1) v1 t1 fs).1).2 = none ∧
    lookupA (_readFile (setItem root (.str k2) v2 t2 (setItem root (.str k1) v1 t1 fs).1).1
      (_getFilePath root k1).filePath) (_getMd5 k1) = some ⟨k1, v1, t1⟩ ∧
    lookupA (_readFile (setItem root (.str k2) v2 t2 (setItem root (.str k1) v1 t1 fs).1).1
      (_getFilePath root k1).filePath) (_getMd5 k2) = some ⟨k2, v2, t2⟩ ∧
    (removeItem root (.str k1)
      (setItem root (.str k2) v2 t2 (setItem root (.str k1) v1 t1 fs).1).1).2 = none ∧
    getItem root (.str k2)
      (removeItem root (.str k1)
        (setItem root (.str k2) v2 t2 (setItem root (.str k1) v1 t1 fs).1).1).1 = .ok v2 := by
  obtain ⟨a0, a1, a2, a3, ra, hda, _, _, hfa⟩ := md5_filePath_decomp root k1
  obtain ⟨b0, b1, b2, b3, rb, hdb, _, _, hfb⟩ := md5_filePath_decomp root k2
  have take_four : ∀ (a b c d : Char) (l : List Char),
      (a :: b :: c :: d :: l).take 4 = [a, b, c, d] := fun _ _ _ _ _ => rfl
  rw [hda, hdb, take_four, take_four] at hpre
  simp only [List.cons.injEq, and_true] at hpre
  obtain ⟨e0, e1, e2, e3⟩ := hpre
  subst e0; subst e1; subst e2; subst e3
  have hpath : (_getFilePath root k2).filePath = (_getFilePath root k1).filePath := by
    rw [hfa, hfb]
  have hfolder : (_getFilePath root k2).folderPath = (_getFilePath root k1).folderPath := by
    rw [hfa, hfb]
  refine ⟨hpath, rfl, rfl, ?_⟩
  set p := (_getFilePath root k1).filePath with hp
  set m1 := _getMd5 k1
  set m2 := _getMd5 k2
  set fsA := (setItem root (.str k1) v1 t1 fs).1 with hA
  set fsB := (setItem root (.str k2) v2 t2 fsA).1 with hB
  have hreadA : _readFile fsA p =
      setA (_readFile fs p) m1 ⟨k1, v1, t1⟩ := readFile_setItem_self root k1 v1 t1 fs
  have hreadB : _readFile fsB p =
      setA (setA (_readFile fs p) m1 ⟨k1, v1, t1⟩) m2 ⟨k2, v2, t2⟩ := by
    rw [hB, ← hpath, readFile_setItem_self, hpath, hreadA]
  have hm21 : m2 ≠ m1 := Ne.symm hmd
  have hlook1 : lookupA (_readFile fsB p) m1 = some ⟨k1, v1, t1⟩ := by
    rw [hreadB, lookupA_setA_ne _ _ hmd, lookupA_setA_self]
  have hlook2 : lookupA (_readFile fsB p) m2 = some ⟨k2, v2, t2⟩ := by
    rw [hreadB, lookupA_setA_self]
  have hexB : existsSync fsB p = true := by
    rw [hB, ← hpath]
    exact existsSync_setItem_self root k2 v2 t2 fsA
  have hdel : lookupA (delA (_readFile fsB p) m1) m2 = some ⟨k2, v2, t2⟩ := by
    rw [lookupA_delA_ne _ hm21, hlook2]
  have hnonnil : delA (_readFile fsB p) m1 ≠ [] := by
    intro hnil
    rw [hnil] at hdel
    simp [lookupA] at hdel
  have hrem : removeItem root (.str k1) fsB =
      (_writeFile fsB p (delA (_readFile fsB p) m1), none) :=
    removeItem_write hexB hlook1 hnonnil
  refine ⟨hlook1, hlook2, by rw [hrem], ?_⟩
  rw [hrem]
  have hexC : existsSync (_writeFile fsB p (delA (_readFile fsB p) m1)) p = true :=
    existsSync_writeFile _ _ _
  have hreadC : _readFile (_writeFile fsB p (delA (_readFile fsB p) m1)) p =
      delA (_readFile fsB p) m1 := readFile_writeFile _ _ _
  have := @getItem_found root k2 (_writeFile fsB p (delA (_readFile fsB p) m1)) ⟨k2, v2, t2⟩
    (by rw [hpath]; exact hexC) (by rw [hpath, hreadC]; exact hdel)
  exact this

set_option maxRecDepth 100000 in
/-- Witness for C3 at the concrete colliding keys `k109` and `k180`, whose
MD5 digests both start with `c590`. -/
theorem shard_sharing_witness :
    getItem ["cache"] (.str "k180")
      (removeItem ["cache"] (.str "k109")
        (setItem ["cache"] (.str "k180") (.str "b") 2
          (setItem ["cache"] (.str "k109") (.str "a") 1 ⟨[], [["cache"]]⟩).1).1).1 =
      .ok (.str "b") :=
  (shard_sharing ["cache"] "k109" "k180" (.str "a") (.str "b") 1 2 ⟨[], [["cache"]]⟩
    (by decide) (by decide) (by decide)).2.2.2.2.2.2

/-- C5: `get` on a missing shard file, or on a shard document with no record
for the key's digest, returns the null sentinel and raises no error; a record
holding a stored null value also yields null, indistinguishably. -/
theorem get_absent_returns_null (root : Path) (k : String) (fs : FS) :
    (existsSync fs (_getFilePath root k).filePath = false →
      getItem root (.str k) fs = .ok .null) ∧
    (lookupA (_readFile fs (_getFilePath root k).filePath) (_getMd5 k) = none →
      getItem root (.str k) fs = .ok .null) ∧
    (∀ r : Record,
      lookupA (_readFile fs (_getFilePath root k).filePath) (_getMd5 k) = some r →
      r.value = .null → getItem root (.str k) fs = .ok .null) := by
  refine ⟨fun h => getItem_noFile h, fun h => ?_, fun r hr hv => ?_⟩
  · by_cases hex : existsSync fs (_getFilePath root k).filePath = false
    · exact getItem_noFile hex
    · exact getItem_noEntry (by simpa using hex) h
  · by_cases hex : existsSync fs (_getFilePath root k).filePath = false
    · exact getItem_noFile hex
    · rw [getItem_found (by simpa using hex) hr, hv]

set_option maxRecDepth 100000 in
/-- Witness for C5: a get on an empty store returns null. -/
theorem get_absent_returns_null_witness :
    getItem ["cache"] (.str "nonexistent") ⟨[], [["cache"]]⟩ = .ok .null :=
  (get_absent_returns_null ["cache"] "nonexistent" ⟨[], [["cache"]]⟩).1 (by decide)

/-- C6: a non-string key makes each of set/get/remove fail immediately with
the TypeError, the filesystem state untouched; a string key never raises it. -/
theorem nonstring_key_type_error (root : Path) (key v : Json) (t : Nat) (fs : FS) :
    (isStr key = false →
      setItem root key v t fs = (fs, some (.typeError "Key must be a string")) ∧
      getItem root key fs = .error (.typeError "Key must be a string") ∧
      removeItem root key fs = (fs, some (.typeError "Key must be a string"))) ∧
    (∀ s, key = .str s →
      (setItem root key v t fs).2 = none ∧
      (∃ j, getItem root key fs = .ok j) ∧
      (removeItem root key fs).2 = none) := by
  constructor
  · intro h
    cases key <;> first
      | exact ⟨rfl, rfl, rfl⟩
      | simp [isStr] at h
  · rintro s rfl
    refine ⟨rfl, ?_, ?_⟩
    · by_cases hex : existsSync fs (_getFilePath root s).filePath = false
      · exact ⟨.null, getItem_noFile hex⟩
      · have hex' : existsSync fs (_getFilePath root s).filePath = true := by simpa using hex
        rcases hl : lookupA (_readFile fs (_getFilePath root s).filePath) (_getMd5 s) with _ | r
        · exact ⟨.null, getItem_noEntry hex' hl⟩
        · exact ⟨r.value, getItem_found hex' hl⟩
    · by_cases hex : existsSync fs (_getFilePath root s).filePath = false
      · rw [removeItem_noFile hex]
      · have hex' : existsSync fs (_getFilePath root s).filePath = true := by simpa using hex
        rcases hl : lookupA (_readFile fs (_getFilePath root s).filePath) (_getMd5 s) with _ | r
        · rw [removeItem_noEntry hex' hl]
        · by_cases hnil : delA (_readFile fs (_getFilePath root s).filePath) (_getMd5 s) = []
          · rw [removeItem_unlink hex' hl hnil]
          · rw [removeItem_write hex' hl hnil]

/-- Witness for C6: the numeric key `123` is rejected with the TypeError and
the state is returned unchanged. -/
theorem nonstring_key_type_error_witness :
    setItem ["cache"] (.num 123) (.str "x") 0 ⟨[], [["cache"]]⟩ =
      (⟨[], [["cache"]]⟩, some (.typeError "Key must be a string")) :=
  ((nonstring_key_type_error ["cache"] (.num 123) (.str "x") 0 ⟨[], [["cache"]]⟩).1 rfl).1

/-- C7: a shard file that exists but fails to parse is treated as the empty
document and the failure is never surfaced: get yields the not-found
sentinel, set succeeds and writes a fresh document holding only the new
record, and remove succeeds leaving the state unchanged. -/
theorem corrupt_shard_treated_empty (root : Path) (k : String) (v : Json) (t : Nat) (fs : FS)
    (h : lookupA fs.files (_getFilePath root k).filePath = some none) :
    _readFile fs (_getFilePath root k).filePath = [] ∧
    getItem root (.str k) fs = .ok .null ∧
    (setItem root (.str k) v t fs).2 = none ∧
    _readFile (setItem root (.str k) v t fs).1 (_getFilePath root k).filePath =
      [(_getMd5 k, ⟨k, v, t⟩)] ∧
    removeItem root (.str k) fs = (fs, none) := by
  have hread : _readFile fs (_getFilePath root k).filePath = [] := by
    simp [_readFile, h]
  have hex : existsSync fs (_getFilePath root k).filePath = true := by
    simp [existsSync, isFile, h]
  refine ⟨hread, ?_, rfl, ?_, ?_⟩
  · exact getItem_noEntry hex (by rw [hread]; rfl)
  · rw [readFile_setItem_self, hread]
    rfl
  · exact removeItem_noEntry hex (by rw [hread]; rfl)

/-- Witness for C7: a store whose only shard file for `username` is corrupt
answers a get with null. -/
theorem corrupt_shard_treated_empty_witness :
    getItem ["cache"] (.str "username")
      ⟨[((_getFilePath ["cache"] "username").filePath, none)], [["cache"]]⟩ = .ok .null :=
  (corrupt_shard_treated_empty ["cache"] "username" (.str "x") 0
    ⟨[((_getFilePath ["cache"] "username").filePath, none)], [["cache"]]⟩
    (by simp [lookupA])).2.1

/-- C4: no empty shard file ever persists: set, remove and clear preserve
the absence of empty shard documents, and removing the sole entry of a
shard unlinks the file from disk rather than rewriting it empty. -/
theorem no_empty_shard_invariant (root : Path) (key v : Json) (t : Nat) (fs : FS)
    (k : String) (r : Record) (h : noEmptyShard fs = true) :
    noEmptyShard (setItem root key v t fs).1 = true ∧
    noEmptyShard (removeItem root key fs).1 = true ∧
    noEmptyShard (clear root fs) = true ∧
    (_readFile fs (_getFilePath root k).filePath = [(_getMd5 k, r)] →
      removeItem root (.str k) fs = (unlink fs (_getFilePath root k).filePath, none) ∧
      isFile (removeItem root (.str k) fs).1 (_getFilePath root k).filePath = false) := by
  have hset : ∀ (s : String), noEmptyShard (setItem root (.str s) v t fs).1 = true := by
    intro s
    have hfiles : (setItem root (.str s) v t fs).1.files =
        setA fs.files (_getFilePath root s).filePath
          (some (setA (_readFile fs (_getFilePath root s).filePath) (_getMd5 s) ⟨s, v, t⟩)) := by
      rw [setItem_state]
      simp [_writeFile, ensureDir_files]
    unfold noEmptyShard
    rw [hfiles]
    exact all_setA h (by simp [fileNonempty, setA_ne_nil])
  have hrem : ∀ (s : String), noEmptyShard (removeItem root (.str s) fs).1 = true := by
    intro s
    by_cases hex : existsSync fs (_getFilePath root s).filePath = false
    · rw [removeItem_noFile hex]
      exact h
    · have hex' : existsSync fs (_getFilePath root s).filePath = true := by simpa using hex
      rcases hl : lookupA (_readFile fs (_getFilePath root s).filePath) (_getMd5 s) with _ | r0
      · rw [removeItem_noEntry hex' hl]
        exact h
      · by_cases hnil : delA (_readFile fs (_getFilePath root s).filePath) (_getMd5 s) = []
        · rw [removeItem_unlink hex' hl hnil]
          exact all_filter_of_all h
        · rw [removeItem_write hex' hl hnil]
          exact all_setA h (by simp [fileNonempty, hnil])
  refine ⟨?_, ?_, ?_, ?_⟩
  · cases key <;> first
      | exact hset _
      | exact h
  · cases key <;> first
      | exact hrem _
      | exact h
  · unfold clear
    split
    · exact foldl_clearStep_all _ _ h
    · exact h
  · intro hsole
    have hlook : lookupA fs.files (_getFilePath root k).filePath =
        some (some [(_getMd5 k, r)]) := by
      unfold _readFile at hsole
      rcases heq : lookupA fs.files (_getFilePath root k).filePath with _ | od
      · rw [heq] at hsole
        simp at hsole
      · rcases od with _ | d
        · rw [heq] at hsole
          simp at hsole
        · rw [heq] at hsole
          simp at hsole
          rw [hsole]
    have hex' : existsSync fs (_getFilePath root k).filePath = true := by
      simp [existsSync, isFile, hlook]
    have hl : lookupA (_readFile fs (_getFilePath root k).filePath) (_getMd5 k) = some r := by
      rw [hsole]
      simp [lookupA]
    have hdel : delA (_readFile fs (_getFilePath root k).filePath) (_getMd5 k) = [] := by
      rw [hsole]
      simp [delA]
    refine ⟨removeItem_unlink hex' hl hdel, ?_⟩
    rw [removeItem_unlink hex' hl hdel]
    simp [isFile, unlink, lookupA_delA_self]

set_option maxRecDepth 1000000 in
/-- Witness for C4: removing the sole record of its shard leaves no file at
the shard path. -/
theorem no_empty_shard_invariant_witness :
    isFile (removeItem ["c"] (.str "username")
        (setItem ["c"] (.str "username") (.str "zhangsan") 7 ⟨[], [["c"]]⟩).1).1
      (_getFilePath ["c"] "username").filePath = false :=
  ((no_empty_shard_invariant ["c"] (.str "other") (.str "x") 0
      (setItem ["c"] (.str "username") (.str "zhangsan") 7 ⟨[], [["c"]]⟩).1
      "username" ⟨"username", .str "zhangsan", 7⟩ (by decide)).2.2.2 (by rfl)).2

set_option maxRecDepth 1000000 in
/-- C8 counterexample: on the reachable store holding one record whose key
is the empty string, `keys()` returns no element although one record is
stored across the shard documents — `keys()` is not one element per record. -/
theorem keys_omits_empty_key_record :
    keys ["c"] (setItem ["c"] (.str "") (.str "x") 0 ⟨[], [["c"]]⟩).1 = [] ∧
    (allRecords ["c"] (setItem ["c"] (.str "") (.str "x") 0 ⟨[], [["c"]]⟩).1).map Record.key
      = [""] := by
  decide

/-- C8 amended: `keys()` returns the `key` field of every record whose key
is a nonempty string (records with an empty-string key fail the source's
truthiness test and are skipped), in traversal order, and the `length`
property equals the count produced by `keys()`. -/
theorem keys_enumerates_nonempty_keys (root : Path) (fs : FS) :
    keys root fs = (allRecords root fs).filterMap
      (fun r => if r.key = "" then none else some r.key) ∧
    length root fs = (keys root fs).length := by
  refine ⟨?_, rfl⟩
  unfold keys allRecords
  rw [List.filterMap_flatMap]

theorem contains_true_iff {α : Type} [BEq α] [LawfulBEq α] {l : List α} {a : α} :
    l.contains a = true ↔ a ∈ l := List.elem_iff

theorem mem_clearStep {root : Path} {acc : FS} {n : String} {e : Path × FileData}
    (h : e ∈ (clearStep root acc n).files) : e ∈ acc.files := by
  revert h
  show e ∈ (if isDir acc (root ++ [n]) then removeDir acc (root ++ [n]) else acc).files → _
  split
  · intro h
    exact (List.mem_filter.1 h).1
  · exact id

theorem mem_foldl_clearStep {root : Path} (names : List String) :
    ∀ (acc : FS) (e : Path × FileData),
      e ∈ (names.foldl (clearStep root) acc).files → e ∈ acc.files := by
  induction names with
  | nil =>
    intro acc e h
    exact h
  | cons n rest ih =>
    intro acc e h
    rw [List.foldl_cons] at h
    exact mem_clearStep (ih _ _ h)

theorem isDir_clearStep_other {root : Path} {acc : FS} {m n : String}
    (hdir : isDir acc (root ++ [n]) = true) (hne : m ≠ n) :
    isDir (clearStep root acc m) (root ++ [n]) = true := by
  show isDir (if isDir acc (root ++ [m]) then removeDir acc (root ++ [m]) else acc) _ = true
  split
  · unfold isDir at hdir ⊢
    rw [contains_true_iff] at hdir ⊢
    show root ++ [n] ∈ acc.dirs.filter _
    refine List.mem_filter.2 ⟨hdir, ?_⟩
    simp only [Bool.not_eq_true', decide_eq_false_iff_not]
    intro hcon
    rw [List.prefix_append_right_inj, List.cons_prefix_cons] at hcon
    exact hne hcon.1
  · exact hdir

theorem isDir_root_clearStep {root : Path} {acc : FS} {m : String}
    (hdir : isDir acc root = true) : isDir (clearStep root acc m) root = true := by
  show isDir (if isDir acc (root ++ [m]) then removeDir acc (root ++ [m]) else acc) _ = true
  split
  · unfold isDir at hdir ⊢
    rw [contains_true_iff] at hdir ⊢
    show root ∈ acc.dirs.filter _
    refine List.mem_filter.2 ⟨hdir, ?_⟩
    simp only [Bool.not_eq_true', decide_eq_false_iff_not]
    intro hcon
    have := hcon.length_le
    simp at this
  · exact hdir

theorem isDir_root_foldl {root : Path} (names : List String) :
    ∀ (acc : FS), isDir acc root = true →
      isDir (names.foldl (clearStep root) acc) root = true := by
  induction names with
  | nil =>
    intro acc h
    exact h
  | cons n rest ih =>
    intro acc h
    rw [List.foldl_cons]
    exact ih _ (isDir_root_clearStep h)

theorem foldl_clearStep_removes {root : Path} (names : List String) :
    ∀ (acc : FS) (n : String) (q : Path) (d : FileData),
      n ∈ names → isDir acc (root ++ [n]) = true → root ++ [n] <+: q →
      (q, d) ∉ (names.foldl (clearStep root) acc).files := by
  induction names with
  | nil =>
    intro acc n q d hn
    exact absurd hn (List.not_mem_nil n)
  | cons m rest ih =>
    intro acc n q d hn hdir hpre hmem
    rw [List.foldl_cons] at hmem
    by_cases hmn : m = n
    · subst hmn
      have hmem0 : (q, d) ∈ (clearStep root acc m).files := mem_foldl_clearStep rest _ _ hmem
      have hstep : clearStep root acc m = removeDir acc (root ++ [m]) := by
        show (if isDir acc (root ++ [m]) then _ else _) = _
        rw [if_pos hdir]
      rw [hstep] at hmem0
      have hkept := (List.mem_filter.1 hmem0).2
      simp only [Bool.not_eq_true', decide_eq_false_iff_not] at hkept
      exact hkept hpre
    · have hn' : n ∈ rest := by
        rcases List.mem_cons.1 hn with h | h
        · exact absurd h.symm hmn
        · exact h
      exact ih (clearStep root acc m) n q d hn' (isDir_clearStep_other hdir hmn) hpre hmem

theorem mem_clear_files {root : Path} {fs : FS} {e : Path × FileData}
    (h : e ∈ (clear root fs).files) : e ∈ fs.files := by
  unfold clear at h
  split at h
  · exact mem_foldl_clearStep _ _ _ h
  · exact h

theorem clear_removes_deep {root : Path} {fs : FS} (hok : clearOK root fs = true)
    {q : Path} {d : FileData} (hpre : root <+: q) (hlen : root.length + 2 ≤ q.length) :
    (q, d) ∉ (clear root fs).files := by
  intro hmem
  unfold clearOK at hok
  rw [Bool.and_eq_true] at hok
  obtain ⟨hroot, hfiles⟩ := hok
  have hex : existsSync fs root = true := by
    unfold existsSync isDir
    rw [hroot]
    simp
  have hmem0 : (q, d) ∈ fs.files := mem_clear_files hmem
  have hcond := (List.all_eq_true.1 hfiles) (q, d) hmem0
  rw [Bool.or_eq_true] at hcond
  rcases hcond with hcond | hcond
  · simp only [Bool.not_eq_true', decide_eq_false_iff_not] at hcond
    exact hcond hpre
  · rw [Bool.and_eq_true] at hcond
    obtain ⟨hlen2, hparent⟩ := hcond
    obtain ⟨suf, hq⟩ := hpre
    rcases suf with _ | ⟨n, tail⟩
    · rw [List.append_nil] at hq
      subst hq
      omega
    · have hqd : q.getD root.length "" = n := by
        rw [← hq, List.getD_eq_getElem?_getD, List.getElem?_append_right (Nat.le_refl _)]
        simp
      rw [hqd] at hparent
      have hdir : isDir fs (root ++ [n]) = true := hparent
      have hchild : childName root (root ++ [n]) = some n := by
        unfold childName
        rw [List.drop_left' (by rfl)]
        simp
      have hnmem : n ∈ readdir fs root := by
        unfold readdir
        refine List.mem_filterMap.2 ⟨root ++ [n], ?_, hchild⟩
        exact List.mem_append.2 (.inr (contains_true_iff.1 hparent))
      have hpre2 : root ++ [n] <+: q := by
        rw [← hq, List.prefix_append_right_inj]
        exact ⟨tail, rfl⟩
      unfold clear at hmem
      rw [if_pos hex] at hmem
      exact foldl_clearStep_removes (readdir fs root) fs n q d hnmem hdir hpre2 hmem

/-- C9: on a store-shaped state, `clear()` leaves `length` 0, `keys()`
empty and every get answering the not-found sentinel, while the root
directory itself stays in place; `clear()` is a no-op when the root does
not exist. -/
theorem clear_resets_store (root : Path) (fs : FS) :
    (clearOK root fs = true →
      keys root (clear root fs) = [] ∧
      length root (clear root fs) = 0 ∧
      (∀ k : String, getItem root (.str k) (clear root fs) = .ok .null) ∧
      isDir (clear root fs) root = true) ∧
    (existsSync fs root = false → clear root fs = fs) := by
  constructor
  · intro hok
    have hall : ∀ (e : Path × FileData), e ∈ fs.files → root <+: e.1 →
        root.length + 2 ≤ e.1.length := by
      intro e he hp
      unfold clearOK at hok
      rw [Bool.and_eq_true] at hok
      have hcond := (List.all_eq_true.1 hok.2) e he
      rw [Bool.or_eq_true] at hcond
      rcases hcond with hx | hx
      · simp only [Bool.not_eq_true', decide_eq_false_iff_not] at hx
        exact absurd hp hx
      · rw [Bool.and_eq_true] at hx
        exact of_decide_eq_true hx.1
    have hnone : ∀ (q : Path) (d : FileData), root <+: q → root.length < q.length →
        (q, d) ∉ (clear root fs).files := by
      intro q d hpre hlen hmem
      exact clear_removes_deep hok hpre
        (hall (q, d) (mem_clear_files hmem) hpre) hmem
    have hjson : _getAllJsonFiles (clear root fs) root = [] := by
      unfold _getAllJsonFiles
      split
      · rw [List.filter_eq_nil_iff]
        intro q hq hcond
        obtain ⟨e, he, heq⟩ := List.mem_map.1 hq
        simp only [Bool.and_eq_true, decide_eq_true_eq] at hcond
        obtain ⟨⟨hpre, hlen⟩, -⟩ := hcond
        subst heq
        exact hnone e.1 e.2 hpre hlen he
      · rfl
    have hkeys : keys root (clear root fs) = [] := by
      unfold keys
      rw [hjson]
      rfl
    refine ⟨hkeys, ?_, ?_, ?_⟩
    · unfold length
      rw [hkeys]
      rfl
    · intro k
      have hfp : root <+: (_getFilePath root k).filePath := by
        show root <+: (root ++ [_, _, _]) ++ [_]
        rw [List.append_assoc]
        exact List.prefix_append _ _
      have hfl : root.length < (_getFilePath root k).filePath.length := by
        show root.length < ((root ++ [_, _, _]) ++ [_]).length
        simp
      cases hex2 : existsSync (clear root fs) (_getFilePath root k).filePath with
      | false => exact getItem_noFile hex2
      | true =>
        have hlk : lookupA (clear root fs).files (_getFilePath root k).filePath = none := by
          rcases hl : lookupA (clear root fs).files (_getFilePath root k).filePath with _ | od
          · rfl
          · exact absurd (lookupA_mem hl) (hnone _ _ hfp hfl)
        exact getItem_noEntry hex2 (by simp [_readFile, hlk, lookupA])
    · have hroot : isDir fs root = true := by
        unfold clearOK at hok
        rw [Bool.and_eq_true] at hok
        exact hok.1
      unfold clear
      split
      · exact isDir_root_foldl _ _ hroot
      · exact hroot
  · intro h
    unfold clear
    rw [if_neg]
    simp [h]

set_option maxRecDepth 1000000 in
/-- Witness for C9: clearing a two-record store empties `keys()` and makes
a previously-set key read back as null. -/
theorem clear_resets_store_witness :
    keys ["c"] (clear ["c"]
      (setItem ["c"] (.str "email") (.str "e") 2
        (setItem ["c"] (.str "username") (.str "zhangsan") 1 ⟨[], [["c"]]⟩).1).1) = [] ∧
    getItem ["c"] (.str "username") (clear ["c"]
      (setItem ["c"] (.str "email") (.str "e") 2
        (setItem ["c"] (.str "username") (.str "zhangsan") 1 ⟨[], [["c"]]⟩).1).1) = .ok .null :=
  ⟨((clear_resets_store ["c"]
      (setItem ["c"] (.str "email") (.str "e") 2
        (setItem ["c"] (.str "username") (.str "zhangsan") 1 ⟨[], [["c"]]⟩).1).1).1
      (by decide)).1,
   ((clear_resets_store ["c"]
      (setItem ["c"] (.str "email") (.str "e") 2
        (setItem ["c"] (.str "username") (.str "zhangsan") 1 ⟨[], [["c"]]⟩).1).1).1
      (by decide)).2.2.1 "username"⟩

theorem readFile_good {root : Path} {fs : FS} {p : Path} (hg : goodState root fs = true)
    (hp : root <+: p) : fileGood root p (some (_readFile fs p)) = true := by
  unfold _readFile
  rcases hl : lookupA fs.files p with _ | od
  · rfl
  · rcases od with _ | doc
    · rfl
    · have hcond := (List.all_eq_true.1 hg) (p, some doc) (lookupA_mem hl)
      rw [Bool.or_eq_true] at hcond
      rcases hcond with hx | hx
      · simp only [Bool.not_eq_true', decide_eq_false_iff_not] at hx
        exact absurd hp hx
      · exact hx

theorem filePath_under_root (root : Path) (k : String) :
    root <+: (_getFilePath root k).filePath := by
  show root <+: (root ++ [_, _, _]) ++ [_]
  rw [List.append_assoc]
  exact List.prefix_append _ _

/-- C10: every operation preserves the implicit placement invariant — each
record of a shard document beneath the root sits under the digest of its
own key, in the file that key resolves to — and a set touches no file other
than the single shard its key resolves to. -/
theorem digest_placement_invariant (root : Path) (key v : Json) (t : Nat) (fs : FS)
    (k : String) (hg : goodState root fs = true) :
    goodState root (setItem root key v t fs).1 = true ∧
    goodState root (removeItem root key fs).1 = true ∧
    goodState root (clear root fs) = true ∧
    (∀ q : Path, q ≠ (_getFilePath root k).filePath →
      lookupA (setItem root (.str k) v t fs).1.files q = lookupA fs.files q) := by
  have hset : ∀ (s : String), goodState root (setItem root (.str s) v t fs).1 = true := by
    intro s
    have hfiles : (setItem root (.str s) v t fs).1.files =
        setA fs.files (_getFilePath root s).filePath
          (some (setA (_readFile fs (_getFilePath root s).filePath) (_getMd5 s) ⟨s, v, t⟩)) := by
      rw [setItem_state]
      simp [_writeFile, ensureDir_files]
    unfold goodState
    rw [hfiles]
    apply all_setA hg
    have hgood : fileGood root (_getFilePath root s).filePath
        (some (setA (_readFile fs (_getFilePath root s).filePath) (_getMd5 s) ⟨s, v, t⟩))
        = true := by
      apply all_setA (readFile_good hg (filePath_under_root root s))
      simp
    rw [Bool.or_eq_true]
    exact .inr hgood
  have hrem : ∀ (s : String), goodState root (removeItem root (.str s) fs).1 = true := by
    intro s
    by_cases hex : existsSync fs (_getFilePath root s).filePath = false
    · rw [removeItem_noFile hex]
      exact hg
    · have hex' : existsSync fs (_getFilePath root s).filePath = true := by simpa using hex
      rcases hl : lookupA (_readFile fs (_getFilePath root s).filePath) (_getMd5 s) with _ | r0
      · rw [removeItem_noEntry hex' hl]
        exact hg
      · by_cases hnil : delA (_readFile fs (_getFilePath root s).filePath) (_getMd5 s) = []
        · rw [removeItem_unlink hex' hl hnil]
          exact all_filter_of_all hg
        · rw [removeItem_write hex' hl hnil]
          apply all_setA hg
          have hgood : fileGood root (_getFilePath root s).filePath
              (some (delA (_readFile fs (_getFilePath root s).filePath) (_getMd5 s)))
              = true :=
            all_filter_of_all (readFile_good hg (filePath_under_root root s))
          rw [Bool.or_eq_true]
          exact .inr hgood
  refine ⟨?_, ?_, ?_, ?_⟩
  · cases key <;> first
      | exact hset _
      | exact hg
  · cases key <;> first
      | exact hrem _
      | exact hg
  · unfold clear
    split
    · exact foldl_clearStep_all _ _ hg
    · exact hg
  · intro q hq
    have hfiles : (setItem root (.str k) v t fs).1.files =
        setA fs.files (_getFilePath root k).filePath
          (some (setA (_readFile fs (_getFilePath root k).filePath) (_getMd5 k) ⟨k, v, t⟩)) := by
      rw [setItem_state]
      simp [_writeFile, ensureDir_files]
    rw [hfiles, lookupA_setA_ne _ _ hq]

set_option maxRecDepth 1000000 in
/-- Witness for C10: a set leaves an unrelated path unchanged. -/
theorem digest_placement_invariant_witness :
    lookupA (setItem ["c"] (.str "username") (.str "z") 1 ⟨[], [["c"]]⟩).1.files ["c", "x"] =
      lookupA (FS.mk [] [["c"]]).files ["c", "x"] :=
  (digest_placement_invariant ["c"] (.str "username") (.str "z") 1 ⟨[], [["c"]]⟩ "username"
    (by rfl)).2.2.2 ["c", "x"] (by decide)

end JsonFileCache
